/-
Verification of the revamp render/recording engine core.

This file shallowly embeds the algorithmic core of the repository:
  * the auto-zoom segmentation engine (packages/recording-engine/src/index.ts),
  * the view-transform calculator (timeline utilities module),
  * the render-plan compiler and encoder negotiation
    (packages/render-engine/src/index.ts),
  * the export retry loop (desktop main render service).

JavaScript numbers are modelled as rationals (ℚ).  Fields that carry no
algorithmic content (the randomly generated `id` strings and the free-form
`payload` of recorded events) are omitted from the embedded records, since
every embedded function ignores them.
-/
import Mathlib

namespace Revamp

/-! ## Data model (zod schemas of the core-types package) -/

/-- Source signal of an auto zoom segment: `z.enum(["click","typing","focus"])`. -/
inductive AutoZoomSignal
  | click
  | typing
  | focus
deriving DecidableEq, Repr

/-- Zoom mode: `z.enum(["auto","manual"])`. -/
inductive ZoomMode
  | auto
  | manual
deriving DecidableEq, Repr

/-- Manual zoom target `{xNorm, yNorm}`, both in `[0,1]` per the schema. -/
structure ManualTarget where
  xNorm : ℚ
  yNorm : ℚ
deriving DecidableEq, Repr

/-- Zoom segment of the timeline (`zoomSegmentSchema`); the random `id` string
is omitted (no embedded function reads it). -/
structure ZoomSegment where
  startMs : ℚ
  endMs : ℚ
  level : ℚ
  mode : ZoomMode
  manualTarget : Option ManualTarget
  instant : Bool
  disabled : Bool
  sourceSignal : Option AutoZoomSignal
deriving DecidableEq, Repr

/-- Kind of a recorded interaction event:
`z.enum(["click","typing","focus","cursor"])`. -/
inductive EventKind
  | click
  | typing
  | focus
  | cursor
deriving DecidableEq, Repr

/-- Recorded interaction event (`recordingEventSchema`); `id` and `payload`
are omitted (no embedded function reads them). -/
structure RecordingEvent where
  kind : EventKind
  atMs : ℚ
  xNorm : Option ℚ
  yNorm : Option ℚ
deriving DecidableEq, Repr

/-! ## Auto-zoom segmentation engine (packages/recording-engine/src/index.ts) -/

/-- Options of `buildAutoZooms`.  The TS function takes a `Partial` record and
spreads it over the defaults; the embedding takes the fully merged record. -/
structure AutoZoomOptions where
  includeClicks : Bool
  includeTyping : Bool
  includeFocus : Bool
  defaultZoomLevel : ℚ
  segmentMs : ℚ
  mergeGapMs : ℚ
deriving DecidableEq, Repr

/-- `defaultAutoZoomOptions` of the recording engine. -/
def defaultAutoZoomOptions : AutoZoomOptions :=
  { includeClicks := true
    includeTyping := true
    includeFocus := true
    defaultZoomLevel := 9/5
    segmentMs := 1500
    mergeGapMs := 280 }

/-- `shouldUseEvent(event, options)` of the recording engine. -/
def shouldUseEvent (event : RecordingEvent) (options : AutoZoomOptions) : Bool :=
  match event.kind with
  | .click => options.includeClicks
  | .typing => options.includeTyping
  | .focus => options.includeFocus
  | .cursor => false

/-- `toSignal(kind)` of the recording engine (cursor events are filtered out
before this is called; the TS fallthrough maps them to `focus`). -/
def toSignal (kind : EventKind) : AutoZoomSignal :=
  match kind with
  | .click => .click
  | .typing => .typing
  | _ => .focus

/-- Candidate zoom segment built from one surviving event (the `.map` body
inside `buildAutoZooms`). -/
def candidateOf (durationMs : ℚ) (options : AutoZoomOptions) (event : RecordingEvent) :
    ZoomSegment :=
  { startMs := max 0 (event.atMs - 120)
    endMs := min durationMs (event.atMs + options.segmentMs)
    level := options.defaultZoomLevel
    mode := .auto
    manualTarget := some ⟨event.xNorm.getD (1/2), event.yNorm.getD (1/2)⟩
    instant := false
    disabled := false
    sourceSignal := some (toSignal event.kind) }

/-- Merge step of `buildAutoZooms`: the in-place mutation of the last accepted
segment (`last.endMs = max(...)`; `last.manualTarget = segment.manualTarget`
when the candidate carries a target). -/
def mergeInto (last segment : ZoomSegment) : ZoomSegment :=
  { last with
    endMs := max last.endMs segment.endMs
    manualTarget :=
      match segment.manualTarget with
      | some t => some t
      | none => last.manualTarget }

/-- Left-to-right merge loop of `buildAutoZooms`, rendered functionally:
`cur` is the last accepted segment (still open for merging) and the list
holds the remaining candidates. -/
def mergeRun (gap : ℚ) (cur : ZoomSegment) : List ZoomSegment → List ZoomSegment
  | [] => [cur]
  | segment :: rest =>
    if cur.sourceSignal = segment.sourceSignal ∧ segment.startMs - cur.endMs ≤ gap then
      mergeRun gap (mergeInto cur segment) rest
    else
      cur :: mergeRun gap segment rest

/-- Merge phase of `buildAutoZooms` over the whole candidate list. -/
def mergeCandidates (gap : ℚ) : List ZoomSegment → List ZoomSegment
  | [] => []
  | segment :: rest => mergeRun gap segment rest

/-- Comparator used by `buildAutoZooms`'s pre-sort `(a, b) => a.atMs - b.atMs`:
ascending `atMs`, stable on ties (JS `Array.prototype.sort` is stable, as is
insertion sort). -/
def eventLE (a b : RecordingEvent) : Prop := a.atMs ≤ b.atMs

instance : DecidableRel eventLE := fun a b => inferInstanceAs (Decidable (a.atMs ≤ b.atMs))

instance : IsTotal RecordingEvent eventLE := ⟨fun a b => le_total a.atMs b.atMs⟩

instance : IsTrans RecordingEvent eventLE := ⟨fun _ _ _ h h' => le_trans h h'⟩

/-- `buildAutoZooms(events, durationMs, options)` of the recording engine. -/
def buildAutoZooms (events : List RecordingEvent) (durationMs : ℚ)
    (options : AutoZoomOptions) : List ZoomSegment :=
  let sorted := events.insertionSort eventLE
  let raw := (sorted.filter (shouldUseEvent · options)).map (candidateOf durationMs options)
  if raw.length < 2 then raw else mergeCandidates options.mergeGapMs raw

/-! ## View-transform calculator (timeline utilities module) -/

/-- Result of `computeViewTransform`. -/
structure ViewTransform where
  scale : ℚ
  xPx : ℚ
  yPx : ℚ
deriving DecidableEq, Repr

/-- `clamp(value, min, max)` of the timeline utilities. -/
def clamp (value lo hi : ℚ) : ℚ := min (max value lo) hi

/-- `computeViewTransform(zoom, frameWidth, frameHeight)` of the timeline
utilities: clamped-centering viewport top-left for the live preview. -/
def computeViewTransform (zoom : Option ZoomSegment) (frameWidth frameHeight : ℚ) :
    ViewTransform :=
  match zoom with
  | none => ⟨1, 0, 0⟩
  | some z =>
    let scale := clamp z.level 1 4
    let target := z.manualTarget.getD ⟨1/2, 1/2⟩
    let targetXPx := target.xNorm * frameWidth
    let targetYPx := target.yNorm * frameHeight
    let viewportWidth := frameWidth / scale
    let viewportHeight := frameHeight / scale
    { scale := scale
      xPx := clamp (targetXPx - viewportWidth / 2) 0 (frameWidth - viewportWidth)
      yPx := clamp (targetYPx - viewportHeight / 2) 0 (frameHeight - viewportHeight) }

/-! ## Encoder negotiation -/

/-- `EncoderChoice` union type of the render engine. -/
inductive EncoderChoice
  | h264_nvenc
  | h264_qsv
  | h264_amf
  | libx264
  | mpeg4
deriving DecidableEq, Repr

/-- String literal of each encoder choice. -/
def encoderName : EncoderChoice → String
  | .h264_nvenc => "h264_nvenc"
  | .h264_qsv => "h264_qsv"
  | .h264_amf => "h264_amf"
  | .libx264 => "libx264"
  | .mpeg4 => "mpeg4"

/-- `ExportSettings["encoderHint"]`: `z.enum(["auto","nvenc","qsv","amf","mpeg4"])`. -/
inductive EncoderHint
  | auto
  | nvenc
  | qsv
  | amf
  | mpeg4
deriving DecidableEq, Repr

/-- `pickEncoder(available, hint)` of the render engine.  `available` is the
probed list of encoder name strings. -/
def pickEncoder (available : List String) (hint : EncoderHint) : EncoderChoice :=
  if hint = .nvenc ∧ "h264_nvenc" ∈ available then .h264_nvenc
  else if hint = .qsv ∧ "h264_qsv" ∈ available then .h264_qsv
  else if hint = .amf ∧ "h264_amf" ∈ available then .h264_amf
  else if hint = .mpeg4 ∧ "mpeg4" ∈ available then .mpeg4
  else if "h264_nvenc" ∈ available then .h264_nvenc
  else if "h264_qsv" ∈ available then .h264_qsv
  else if "h264_amf" ∈ available then .h264_amf
  else if "libx264" ∈ available then .libx264
  else .mpeg4

/-- `ENCODER_PRIORITY` of the render service. -/
def encoderPriorityList : List EncoderChoice :=
  [.h264_nvenc, .h264_qsv, .h264_amf, .libx264, .mpeg4]

/-- The `push` closure of `buildEncoderAttempts`: append unless present. -/
def pushUnique (attempts : List EncoderChoice) (encoder : EncoderChoice) :
    List EncoderChoice :=
  if encoder ∈ attempts then attempts else attempts ++ [encoder]

/-- `buildEncoderAttempts(available, preferred)` of the render service. -/
def buildEncoderAttempts (available : List EncoderChoice) (preferred : EncoderChoice) :
    List EncoderChoice :=
  let afterPreferred := pushUnique [] preferred
  let afterPriority :=
    encoderPriorityList.foldl
      (fun acc encoder => if encoder ∈ available then pushUnique acc encoder else acc)
      afterPreferred
  pushUnique (pushUnique afterPriority .libx264) .mpeg4

/-- Duplicate removal keeping the first occurrence, with an accumulator of
already seen elements.  This is the specification-side description of what
the chain of `push` calls computes. -/
def dedupeSeen (seen : List EncoderChoice) : List EncoderChoice → List EncoderChoice
  | [] => []
  | e :: rest => if e ∈ seen then dedupeSeen seen rest else e :: dedupeSeen (e :: seen) rest

/-- Duplicate removal keeping the first occurrence of each element. -/
def dedupeKeepFirst (l : List EncoderChoice) : List EncoderChoice := dedupeSeen [] l

/-! ## Render-plan compiler, numeric semantics of the generated expressions

The compiler emits ffmpeg expression strings.  The functions below give the
numeric value those strings denote under ffmpeg expression evaluation
(`if(c,a,b)` picks `a` when `c` is nonzero; `between(x,lo,hi)` is
`lo ≤ x ≤ hi`; `min`/`max` are the usual ones).  Time is measured in
milliseconds here; the generated strings measure it in seconds, which is a
uniform division by 1000 of every time quantity and so preserves every
comparison. -/

/-- Numeric value denoted by the decimal literal `q.toFixed(d)` (JS rounds to
the nearest multiple of `10^(-d)`, ties away from zero for the nonnegative
values that occur here). -/
def toFixedValue (d : ℕ) (q : ℚ) : ℚ := (⌊q * 10 ^ d + 1 / 2⌋ : ℚ) / 10 ^ d

/-- Segment boundary, in milliseconds, denoted by the compiler's
`toSeconds(ms) = (ms / 1000).toFixed(3)`: the 3-decimal-second literal equals
`⌊ms + 1/2⌋ / 1000` seconds, i.e. `⌊ms + 1/2⌋` whole milliseconds. -/
def compiledBoundary (ms : ℚ) : ℤ := ⌊ms + 1 / 2⌋

/-- Containment test denoted by the generated
`between(t, toSeconds(startMs), toSeconds(endMs))`, with `t` in ms. -/
def compiledContains (segment : ZoomSegment) (t : ℚ) : Prop :=
  (compiledBoundary segment.startMs : ℚ) ≤ t ∧ t ≤ (compiledBoundary segment.endMs : ℚ)

instance (segment : ZoomSegment) (t : ℚ) : Decidable (compiledContains segment t) :=
  inferInstanceAs (Decidable (_ ∧ _))

/-- Value denoted at time `t` (ms) by the expression `toPiecewiseExpression`
builds: the right-to-left fold wrapping the accumulated expression as
`if(between(t,start,end), value, acc)` is a `foldr` over the segment list. -/
def piecewiseValue (segments : List ZoomSegment) (pickValue : ZoomSegment → ℚ)
    (fallback : ℚ) (t : ℚ) : ℚ :=
  segments.foldr (fun segment acc => if compiledContains segment t then pickValue segment else acc)
    fallback

/-- Value of the level literal `Math.max(1, segment.level).toFixed(4)`. -/
def levelValue (segment : ZoomSegment) : ℚ := toFixedValue 4 (max 1 segment.level)

/-- Value of the target-x literal `(segment.manualTarget?.xNorm ?? 0.5).toFixed(4)`. -/
def targetXValue (segment : ZoomSegment) : ℚ :=
  toFixedValue 4 ((segment.manualTarget.map ManualTarget.xNorm).getD (1/2))

/-- Value of the target-y literal `(segment.manualTarget?.yNorm ?? 0.5).toFixed(4)`. -/
def targetYValue (segment : ZoomSegment) : ℚ :=
  toFixedValue 4 ((segment.manualTarget.map ManualTarget.yNorm).getD (1/2))

/-- Value of the `zoomExpression` piecewise level expression at time `t`. -/
def zoomExprValue (segments : List ZoomSegment) (t : ℚ) : ℚ :=
  piecewiseValue segments levelValue 1 t

/-- Value of the `xNormExpression` piecewise target-x expression at time `t`. -/
def xNormExprValue (segments : List ZoomSegment) (t : ℚ) : ℚ :=
  piecewiseValue segments targetXValue (1/2) t

/-- Value of the `yNormExpression` piecewise target-y expression at time `t`. -/
def yNormExprValue (segments : List ZoomSegment) (t : ℚ) : ℚ :=
  piecewiseValue segments targetYValue (1/2) t

/-- Value of the generated crop-x offset
`max(0,min(iw*(zoom)-iw,iw*(xNorm)*(zoom)-iw/2))` at time `t`, where `iw`
stands for the frame width the expressions were authored against. -/
def cropXValue (segments : List ZoomSegment) (iw t : ℚ) : ℚ :=
  max 0 (min (iw * zoomExprValue segments t - iw)
    (iw * xNormExprValue segments t * zoomExprValue segments t - iw / 2))

/-- Value of the generated crop-y offset
`max(0,min(ih*(zoom)-ih,ih*(yNorm)*(zoom)-ih/2))` at time `t`. -/
def cropYValue (segments : List ZoomSegment) (ih t : ℚ) : ℚ :=
  max 0 (min (ih * zoomExprValue segments t - ih)
    (ih * yNormExprValue segments t * zoomExprValue segments t - ih / 2))

/-! ## Render-plan compiler, string generation -/

/-- `Math.round(q)`: the nearest integer, ties toward positive infinity,
which is `⌊q + 1/2⌋` for every rational `q`. -/
def jsMathRound (q : ℚ) : ℤ := ⌊q + 1 / 2⌋

/-- Decimal digits of `m % 10^d`, left-padded with zeros to `d` digits. -/
def padDigits (d : ℕ) (r : ℕ) : String :=
  let s := toString r
  String.mk (List.replicate (d - s.length) '0') ++ s

/-- Decimal literal produced by `q.toFixed(d)` for `d ≥ 1`.  The schemas
constrain every value this is applied to be nonnegative; for negative values
the embedding uses the same round-half-up rule. -/
def fixedLiteral (d : ℕ) (q : ℚ) : String :=
  let n : ℤ := ⌊q * 10 ^ d + 1 / 2⌋
  let core : ℕ → String := fun m => toString (m / 10 ^ d) ++ "." ++ padDigits d (m % 10 ^ d)
  if n < 0 then "-" ++ core n.natAbs else core n.toNat

/-- `toSeconds(ms) = (ms / 1000).toFixed(3)` of the render engine. -/
def toSeconds (ms : ℚ) : String := fixedLiteral 3 (ms / 1000)

/-- `escapeExpressionCommas(expression)`: `replaceAll(",", "\\,")`. -/
def escapeExpressionCommas (expression : String) : String :=
  String.mk (expression.data.flatMap fun c => if c = ',' then ['\\', ','] else [c])

/-- `toPiecewiseExpression(segments, pickValue, fallback)` of the render
engine: the loop from the last index down to the first wraps the accumulated
expression once per segment, i.e. a `foldr` over the segment list (an empty
list yields the fallback, as in the early return). -/
def toPiecewiseExpression (segments : List ZoomSegment)
    (pickValue : ZoomSegment → String) (fallback : String) : String :=
  segments.foldr
    (fun segment acc =>
      "if(between(t," ++ toSeconds segment.startMs ++ "," ++ toSeconds segment.endMs ++ ")," ++
        pickValue segment ++ "," ++ acc ++ ")")
    fallback

/-- Background type: `z.enum(["wallpaper","gradient","color","image","none"])`. -/
inductive BackgroundType
  | wallpaper
  | gradient
  | color
  | image
  | none
deriving DecidableEq, Repr

/-- Background settings (`backgroundSettingsSchema`). -/
structure BackgroundSettings where
  type : BackgroundType
  wallpaperId : Option String
  gradientFrom : String
  gradientTo : String
  color : String
  imagePath : Option String
  padding : ℚ
  roundedCorners : ℚ
  inset : ℚ
  shadow : ℚ
deriving DecidableEq, Repr

/-- Export settings (`exportSettingsSchema`); `width` and `height` are
validated as positive integers, `format`/`profile`/`destination` are not read
by the compiler and are omitted. -/
structure ExportSettings where
  width : ℤ
  height : ℤ
  fps : ℕ
  encoderHint : EncoderHint
deriving DecidableEq, Repr

/-- Timeline (`timelineSchema`), restricted to the tracks the embedded
compiler functions read; cuts, speed, masks, highlights, cursor and audio are
not consumed by the filter-graph compiler. -/
structure Timeline where
  zooms : List ZoomSegment
  background : BackgroundSettings
deriving DecidableEq, Repr

/-- Project file (`projectFileSchema`), restricted to the fields the embedded
compiler functions read.  The TS field `export` is a Lean keyword and is
embedded as `exportSettings`. -/
structure ProjectFileV1 where
  timeline : Timeline
  exportSettings : ExportSettings
deriving DecidableEq, Repr

/-- `backgroundColor(background)` of the render engine. -/
def backgroundColor (background : BackgroundSettings) : String :=
  if background.type = .color then background.color
  else if background.type = .gradient then background.gradientFrom
  else "#0f172a"

/-- Replacement of the first occurrence of `'#'` by `"0x"`, as performed by
the JS `color.replace("#", "0x")` (JS `replace` with a string pattern
replaces only the first occurrence). -/
def replaceHashAux : List Char → List Char
  | [] => []
  | c :: rest => if c = '#' then '0' :: 'x' :: rest else c :: replaceHashAux rest

/-- String form of `color.replace("#", "0x")`. -/
def replaceHash (s : String) : String := String.mk (replaceHashAux s.data)

/-- `computeFrameMargin(project, exportSettings)` of the render engine. -/
def computeFrameMargin (project : ProjectFileV1) (settings : ExportSettings) : ℤ :=
  let background := project.timeline.background
  let requestedMargin : ℤ := max 0 (jsMathRound background.padding + jsMathRound background.inset)
  let maxAllowedMargin : ℤ :=
    max 0 (min ⌊((settings.width : ℚ) - 2) / 2⌋ ⌊((settings.height : ℚ) - 2) / 2⌋)
  min requestedMargin maxAllowedMargin

/-- The filter on active zoom segments inside `createForegroundFilter`:
`!segment.disabled && segment.level > 1`. -/
def isActiveZoom (segment : ZoomSegment) : Bool :=
  !segment.disabled && decide (1 < segment.level)

/-- `createForegroundFilter(project, exportSettings)` of the render engine. -/
def createForegroundFilter (project : ProjectFileV1) (settings : ExportSettings) : String :=
  let margin := computeFrameMargin project settings
  let innerWidth : ℤ := max 2 (settings.width - margin * 2)
  let innerHeight : ℤ := max 2 (settings.height - margin * 2)
  let baseScale := "scale=" ++ toString innerWidth ++ ":" ++ toString innerHeight ++
    ":force_original_aspect_ratio=decrease:flags=lanczos,setsar=1"
  let activeZooms := project.timeline.zooms.filter isActiveZoom
  if activeZooms.isEmpty then baseScale
  else
    let zoomExpression :=
      toPiecewiseExpression activeZooms (fun segment => fixedLiteral 4 (max 1 segment.level)) "1"
    let xNormExpression :=
      toPiecewiseExpression activeZooms
        (fun segment => fixedLiteral 4 ((segment.manualTarget.map ManualTarget.xNorm).getD (1/2)))
        "0.5"
    let yNormExpression :=
      toPiecewiseExpression activeZooms
        (fun segment => fixedLiteral 4 ((segment.manualTarget.map ManualTarget.yNorm).getD (1/2)))
        "0.5"
    let zoomEscaped := escapeExpressionCommas zoomExpression
    let cropX := escapeExpressionCommas
      ("max(0,min(iw*(" ++ zoomExpression ++ ")-iw,iw*(" ++ xNormExpression ++ ")*(" ++
        zoomExpression ++ ")-iw/2))")
    let cropY := escapeExpressionCommas
      ("max(0,min(ih*(" ++ zoomExpression ++ ")-ih,ih*(" ++ yNormExpression ++ ")*(" ++
        zoomExpression ++ ")-ih/2))")
    let dynamicZoom := "scale=iw*(" ++ zoomEscaped ++ "):ih*(" ++ zoomEscaped ++
      "):eval=frame:flags=lanczos,crop=iw:ih:" ++ cropX ++ ":" ++ cropY
    dynamicZoom ++ "," ++ baseScale

/-- `createFilterGraph(project, exportSettings)` of the render engine. -/
def createFilterGraph (project : ProjectFileV1) (settings : ExportSettings) : String :=
  let color := replaceHash (backgroundColor project.timeline.background)
  let foreground := createForegroundFilter project settings
  let pad := "pad=" ++ toString settings.width ++ ":" ++ toString settings.height ++
    ":(ow-iw)/2:(oh-ih)/2:color=" ++ color
  foreground ++ "," ++ pad

/-! ## Render executor retry loop (desktop main render service)

`renderProjectToMp4` iterates over the encoder attempt chain; each iteration
deletes any file at the output path, runs the transcoder and checks the exit
status and the output file.  The external behaviour of one attempt with a
given encoder is abstracted as an `AttemptBehavior`: how the spawned process
ends, the retained stderr tail, and whether the run leaves a file at the
output path. -/

/-- How one spawned transcoder process ends: the `error` event (spawn
failure, carrying the error message) or the `close` event with an exit code. -/
inductive RunOutcome
  | spawnFailed (message : String)
  | exited (code : ℤ)
deriving DecidableEq, Repr

/-- Externally observable behaviour of one encoder attempt. -/
structure AttemptBehavior where
  outcome : RunOutcome
  stderrTail : List String
  outputCreated : Bool
deriving DecidableEq, Repr

/-- List join with a separator, as `Array.prototype.join`. -/
def joinSep (sep : String) : List String → String
  | [] => ""
  | [s] => s
  | s :: rest => s ++ sep ++ joinSep sep rest

/-- Message of the rejection `FFmpeg exited with code ${code}.${details}`
raised by `runRender` on a nonzero exit code. -/
def ffmpegExitMessage (code : ℤ) (stderrTail : List String) : String :=
  "FFmpeg exited with code " ++ toString code ++ "." ++
    (if stderrTail.isEmpty then "" else "\n" ++ joinSep "\n" stderrTail)

/-- Result of `runRender(plan, onProgress)`: resolves on exit code 0, rejects
with the spawn error on the `error` event and with the ffmpeg exit message on
a nonzero exit code. -/
def runRenderResult (b : AttemptBehavior) : Except String Unit :=
  match b.outcome with
  | .spawnFailed message => .error message
  | .exited code => if code = 0 then .ok () else .error (ffmpegExitMessage code b.stderrTail)

/-- Message of the error thrown when the process exits cleanly but the output
file is missing. -/
def missingOutputMessage : String := "Render completed but output was not created."

/-- Error recorded in `lastError` when the attempt with behaviour `b` fails
(either `runRender` rejects, or it resolves and the output-exists check
throws). -/
def attemptFailureMessage (b : AttemptBehavior) : String :=
  match runRenderResult b with
  | .error message => message
  | .ok _ => missingOutputMessage

/-- Success condition of one attempt as the claim states it: exit code 0 and
an output file present afterwards. -/
def attemptSucceeds (b : AttemptBehavior) : Prop :=
  b.outcome = .exited 0 ∧ b.outputCreated = true

instance (b : AttemptBehavior) : Decidable (attemptSucceeds b) :=
  inferInstanceAs (Decidable (_ ∧ _))

/-- Final error message
`Failed to export MP4 after trying encoders: ${encoderAttempts.join(", ")}. ${lastError...}`
(`String(undefined)` is `"undefined"`, matching the template for an empty
chain). -/
def exhaustedMessage (attempts : List EncoderChoice) (lastError : Option String) : String :=
  "Failed to export MP4 after trying encoders: " ++ joinSep ", " (attempts.map encoderName) ++
    ". " ++ lastError.getD "undefined"

/-- Retry loop of `renderProjectToMp4`, threading the `lastError` variable and
the file-system state at the output path (`outputExists`).  Each iteration
first deletes any file at the output path (`if (existsSync) unlinkSync`), then
runs the transcoder — which leaves a file iff the behaviour says so — and then
applies the success check.  Besides the result, the list of encoders actually
attempted is returned. -/
def renderAttemptLoop (behave : EncoderChoice → AttemptBehavior)
    (chain : List EncoderChoice) :
    List EncoderChoice → Option String → Bool → Except String EncoderChoice × List EncoderChoice
  | [], lastError, _ => (.error (exhaustedMessage chain lastError), [])
  | encoder :: rest, _, outputExists =>
    let cleared := if outputExists then false else outputExists
    let b := behave encoder
    let afterRun := cleared || b.outputCreated
    match runRenderResult b with
    | .error message =>
      let r := renderAttemptLoop behave chain rest (some message) afterRun
      (r.1, encoder :: r.2)
    | .ok _ =>
      if afterRun then (.ok encoder, [encoder])
      else
        let r := renderAttemptLoop behave chain rest (some missingOutputMessage) afterRun
        (r.1, encoder :: r.2)

/-- `renderProjectToMp4`'s encoder loop, started on the full attempt chain
with no recorded error and a given initial file state at the output path. -/
def renderProjectLoop (behave : EncoderChoice → AttemptBehavior)
    (chain : List EncoderChoice) (outputExists : Bool) :
    Except String EncoderChoice × List EncoderChoice :=
  renderAttemptLoop behave chain chain none outputExists

/-- Substring containment on strings, used to state that an error message
names an encoder or embeds another message. -/
def strContains (needle haystack : String) : Prop :=
  ∃ u v, haystack.data = u ++ needle.data ++ v

/-- Value of the `lastError` variable after a run of failing attempts,
starting from a previously recorded error. -/
def lastErrorAfter (behave : EncoderChoice → AttemptBehavior) :
    Option String → List EncoderChoice → Option String
  | lastError, [] => lastError
  | _, e :: rest => lastErrorAfter behave (some (attemptFailureMessage (behave e))) rest

/-! ## Specification-side selection rules for the piecewise expressions -/

/-- Selection rule as the specification words it: the value of the first
(lowest-index) segment whose raw `[startMs, endMs]` interval contains `t`,
or the fallback if no segment's interval contains `t`. -/
def specPriorityValue (segments : List ZoomSegment) (pickValue : ZoomSegment → ℚ)
    (fallback t : ℚ) : ℚ :=
  match segments.find? (fun segment => decide (segment.startMs ≤ t ∧ t ≤ segment.endMs)) with
  | some segment => pickValue segment
  | none => fallback

/-- Selection rule actually realised by the compiled expression: the first
segment whose interval with endpoints rounded to whole milliseconds (the
3-decimal-second literals of `toSeconds`) contains `t`. -/
def compiledPriorityValue (segments : List ZoomSegment) (pickValue : ZoomSegment → ℚ)
    (fallback t : ℚ) : ℚ :=
  match segments.find? (fun segment => decide (compiledContains segment t)) with
  | some segment => pickValue segment
  | none => fallback

/-- Exact representability at four decimal places: `q.toFixed(4)` denotes `q`
itself exactly when `q * 10^4` is an integer. -/
def FourDecimal (q : ℚ) : Prop := (q * 10 ^ 4).den = 1

instance (q : ℚ) : Decidable (FourDecimal q) := inferInstanceAs (Decidable (_ = _))

/-! ## Theorems -/

/-- C1: the folded expression picks the first segment whose compiled interval
contains `t`.  Proved by structural induction over the segment list. -/
theorem piecewise_priority_law (segments : List ZoomSegment) (pickValue : ZoomSegment → ℚ)
    (fallback t : ℚ) :
    piecewiseValue segments pickValue fallback t =
      compiledPriorityValue segments pickValue fallback t := by
  induction segments with
  | nil => rfl
  | cons s rest ih =>
    by_cases h : compiledContains s t
    · simp [piecewiseValue, compiledPriorityValue, List.find?_cons, h]
    · simp only [piecewiseValue, List.foldr_cons, if_neg h] at *
      rw [ih]
      simp [compiledPriorityValue, List.find?_cons, h]

/-- C1 counterexample: a segment starting at the fractional millisecond
`0.4` compiles to the boundary literal `0.000`, so at `t = 0` the expression
already yields the segment's level although `0` is outside the raw
`[0.4, 1000]` interval. -/
theorem piecewise_raw_interval_ce :
    piecewiseValue [⟨2/5, 1000, 2, .auto, some ⟨1/2, 1/2⟩, false, false, none⟩]
        levelValue 1 0 ≠
      specPriorityValue [⟨2/5, 1000, 2, .auto, some ⟨1/2, 1/2⟩, false, false, none⟩]
        levelValue 1 0 := by
  norm_num [piecewiseValue, specPriorityValue, compiledContains, compiledBoundary,
    levelValue, toFixedValue, List.find?]

/-- C10: the retry loop's result (and the list of encoders attempted) does not
depend on whether a file already exists at the output path when the loop
starts: every iteration, the first included, deletes any existing output file
before running the transcoder, so only the file the attempt itself creates
can satisfy the post-attempt output-exists check. -/
theorem render_loop_initial_file_irrelevant (behave : EncoderChoice → AttemptBehavior)
    (chain rest : List EncoderChoice) (lastError : Option String) (b₁ b₂ : Bool) :
    renderAttemptLoop behave chain rest lastError b₁ =
      renderAttemptLoop behave chain rest lastError b₂ := by
  cases rest with
  | nil => rfl
  | cons e r => cases b₁ <;> cases b₂ <;> rfl

/-- Membership in `dedupeSeen` only depends on the membership of the seen
accumulator. -/
theorem dedupeSeen_congr (l : List EncoderChoice) :
    ∀ seen seen' : List EncoderChoice, (∀ x, x ∈ seen ↔ x ∈ seen') →
      dedupeSeen seen l = dedupeSeen seen' l := by
  induction l with
  | nil => intro _ _ _; rfl
  | cons e rest ih =>
    intro seen seen' h
    by_cases he : e ∈ seen
    · rw [dedupeSeen, if_pos he, dedupeSeen, if_pos ((h e).mp he), ih _ _ h]
    · rw [dedupeSeen, if_neg he, dedupeSeen, if_neg (fun c => he ((h e).mpr c))]
      have h' : ∀ x, x ∈ e :: seen ↔ x ∈ e :: seen' := by
        intro x; simp [List.mem_cons, h x]
      rw [ih _ _ h']

/-- The chain of `push` calls is duplicate removal keeping first occurrences. -/
theorem foldl_pushUnique (l : List EncoderChoice) :
    ∀ acc : List EncoderChoice, l.foldl pushUnique acc = acc ++ dedupeSeen acc l := by
  induction l with
  | nil => intro acc; simp [dedupeSeen]
  | cons e rest ih =>
    intro acc
    by_cases he : e ∈ acc
    · rw [List.foldl_cons, show pushUnique acc e = acc from by rw [pushUnique, if_pos he],
        ih, dedupeSeen, if_pos he]
    · rw [List.foldl_cons, show pushUnique acc e = acc ++ [e] from by rw [pushUnique, if_neg he],
        ih, dedupeSeen, if_neg he]
      rw [dedupeSeen_congr rest (acc ++ [e]) (e :: acc) (by intro x; simp [or_comm])]
      simp

/-- The conditional push over the priority list is a fold over its
availability-filtered sublist. -/
theorem foldl_condPush (available : List EncoderChoice) (l : List EncoderChoice) :
    ∀ acc : List EncoderChoice,
      l.foldl (fun acc encoder => if encoder ∈ available then pushUnique acc encoder else acc) acc
        = (l.filter (fun e => decide (e ∈ available))).foldl pushUnique acc := by
  induction l with
  | nil => intro _; rfl
  | cons e rest ih =>
    intro acc
    by_cases he : e ∈ available
    · rw [List.foldl_cons, if_pos he, ih]
      simp [List.filter_cons, he]
    · rw [List.foldl_cons, if_neg he, ih]
      simp [List.filter_cons, he]

/-- C5: `buildEncoderAttempts` is the first-occurrence deduplication of
`preferred`, then the available encoders of the fixed priority list, then the
`libx264` and `mpeg4` safety nets; it is never empty; and the chain for
`available = [h264_qsv]`, `preferred = h264_nvenc` is exactly
`[h264_nvenc, h264_qsv, libx264, mpeg4]`. -/
theorem buildEncoderAttempts_spec (available : List EncoderChoice) (preferred : EncoderChoice) :
    buildEncoderAttempts available preferred =
      dedupeKeepFirst (preferred ::
        (encoderPriorityList.filter (fun e => decide (e ∈ available)) ++
          [.libx264, .mpeg4]))
    ∧ buildEncoderAttempts available preferred ≠ []
    ∧ buildEncoderAttempts [.h264_qsv] .h264_nvenc =
        [.h264_nvenc, .h264_qsv, .libx264, .mpeg4] := by
  have key : ∀ av pref, buildEncoderAttempts av pref =
      dedupeKeepFirst (pref ::
        (encoderPriorityList.filter (fun e => decide (e ∈ av)) ++ [.libx264, .mpeg4])) := by
    intro av pref
    have e1 : buildEncoderAttempts av pref =
        List.foldl pushUnique []
          ([pref] ++ encoderPriorityList.filter (fun e => decide (e ∈ av)) ++
            [EncoderChoice.libx264, EncoderChoice.mpeg4]) := by
      simp only [buildEncoderAttempts]
      rw [foldl_condPush, List.foldl_append, List.foldl_append]
      rfl
    rw [e1, foldl_pushUnique]
    simp [dedupeKeepFirst]
  refine ⟨key available preferred, ?_, by decide⟩
  rw [key available preferred, dedupeKeepFirst, dedupeSeen]
  simp

/-- C6 counterexample: with `available = ["h264_nvenc","libx264"]` and hint
`qsv`, `pickEncoder` does not return `libx264`. -/
theorem pickEncoder_qsv_hint_ce :
    pickEncoder ["h264_nvenc", "libx264"] .qsv ≠ .libx264 := by decide

/-- C6 amended: with the `qsv` hint unavailable, `pickEncoder` walks the
hardware priority list and returns `h264_nvenc`, the first available
hardware encoder — not `libx264`. -/
theorem pickEncoder_qsv_hint_value :
    pickEncoder ["h264_nvenc", "libx264"] .qsv = .h264_nvenc := by decide

/-- C4 counterexample: with the default options (`segmentMs = 1500`,
`mergeGapMs = 280`), two click events at `atMs = 1000` and
`atMs = 1000 + 1500 + 280 = 2780` still merge into a single segment (the
claim predicts two), because the second candidate starts at `atMs − 120`. -/
theorem autoZoom_merge_boundary_ce :
    (buildAutoZooms
        [⟨.click, 1000, some (1/2), some (1/2)⟩, ⟨.click, 2780, some (1/2), some (1/2)⟩]
        10000 defaultAutoZoomOptions).length = 1 := by
  norm_num [buildAutoZooms, List.insertionSort, List.orderedInsert, eventLE, shouldUseEvent,
    candidateOf, mergeCandidates, mergeRun, mergeInto, defaultAutoZoomOptions, List.filter]

/-- C4 amended: the merge/split boundary sits 120 ms later than the claim
says, at `atMs = 1000 + segmentMs + mergeGapMs + 120 = 2900`: events at 1000
and 2779 merge (as the claim's first half says), events at 1000 and 2900
still merge, and events at 1000 and 2901 split into two segments. -/
theorem autoZoom_merge_boundary :
    (buildAutoZooms
        [⟨.click, 1000, some (1/2), some (1/2)⟩, ⟨.click, 2779, some (1/2), some (1/2)⟩]
        10000 defaultAutoZoomOptions).length = 1 ∧
    (buildAutoZooms
        [⟨.click, 1000, some (1/2), some (1/2)⟩, ⟨.click, 2900, some (1/2), some (1/2)⟩]
        10000 defaultAutoZoomOptions).length = 1 ∧
    (buildAutoZooms
        [⟨.click, 1000, some (1/2), some (1/2)⟩, ⟨.click, 2901, some (1/2), some (1/2)⟩]
        10000 defaultAutoZoomOptions).length = 2 := by
  refine ⟨?_, ?_, ?_⟩ <;>
    norm_num [buildAutoZooms, List.insertionSort, List.orderedInsert, eventLE, shouldUseEvent,
      candidateOf, mergeCandidates, mergeRun, mergeInto, defaultAutoZoomOptions, List.filter]

/-- C8 counterexample: two click events recorded at the same `atMs = 1000`
but with different x targets.  Swapping them swaps the stable-sort order and
therefore which target wins the most-recent-wins merge, so the outputs
differ. -/
theorem buildAutoZooms_perm_ce :
    buildAutoZooms
        [⟨.click, 1000, some (1/5), some (1/2)⟩, ⟨.click, 1000, some (4/5), some (1/2)⟩]
        10000 defaultAutoZoomOptions ≠
      buildAutoZooms
        [⟨.click, 1000, some (4/5), some (1/2)⟩, ⟨.click, 1000, some (1/5), some (1/2)⟩]
        10000 defaultAutoZoomOptions := by
  norm_num [buildAutoZooms, List.insertionSort, List.orderedInsert, eventLE, shouldUseEvent,
    candidateOf, mergeCandidates, mergeRun, mergeInto, defaultAutoZoomOptions, List.filter]

/-- C8 amended: `buildAutoZooms` is invariant under permuting its input as
long as all event timestamps are pairwise distinct — the internal pre-sort
then determines the processing order uniquely.  (With equal timestamps the
stable sort preserves input order, see the counterexample.) -/
theorem buildAutoZooms_perm_invariant (events events' : List RecordingEvent)
    (durationMs : ℚ) (options : AutoZoomOptions)
    (hperm : events.Perm events')
    (hdistinct : events.Pairwise (fun a b => a.atMs ≠ b.atMs)) :
    buildAutoZooms events durationMs options = buildAutoZooms events' durationMs options := by
  have hsortEq : events.insertionSort eventLE = events'.insertionSort eventLE := by
    have hs : List.Sorted eventLE (events.insertionSort eventLE) :=
      List.sorted_insertionSort eventLE events
    have hs' : List.Sorted eventLE (events'.insertionSort eventLE) :=
      List.sorted_insertionSort eventLE events'
    have hp : (events.insertionSort eventLE).Perm events :=
      List.perm_insertionSort eventLE events
    have hp' : (events'.insertionSort eventLE).Perm events' :=
      List.perm_insertionSort eventLE events'
    have hpp : (events.insertionSort eventLE).Perm (events'.insertionSort eventLE) :=
      (hp.trans hperm).trans hp'.symm
    have hd : (events.insertionSort eventLE).Pairwise (fun a b => a.atMs ≠ b.atMs) :=
      (hp.pairwise_iff fun h => Ne.symm h).mpr hdistinct
    have hd' : (events'.insertionSort eventLE).Pairwise (fun a b => a.atMs ≠ b.atMs) :=
      (hpp.pairwise_iff fun h => Ne.symm h).mp hd
    have hlt : List.Sorted (fun a b : RecordingEvent => a.atMs < b.atMs)
        (events.insertionSort eventLE) :=
      (hs.and hd).imp fun hab => lt_of_le_of_ne hab.1 hab.2
    have hlt' : List.Sorted (fun a b : RecordingEvent => a.atMs < b.atMs)
        (events'.insertionSort eventLE) :=
      (hs'.and hd').imp fun hab => lt_of_le_of_ne hab.1 hab.2
    haveI : IsAntisymm RecordingEvent (fun a b => a.atMs < b.atMs) :=
      ⟨fun _ _ h h' => absurd h' (not_lt_of_gt h)⟩
    exact List.eq_of_perm_of_sorted hpp hlt hlt'
  simp only [buildAutoZooms, hsortEq]

/-- C8 witness: two click events with distinct timestamps, swapped. -/
theorem buildAutoZooms_perm_invariant_witness :
    buildAutoZooms
        [⟨.click, 1000, some (1/5), some (1/2)⟩, ⟨.click, 2000, some (4/5), some (1/2)⟩]
        10000 defaultAutoZoomOptions =
      buildAutoZooms
        [⟨.click, 2000, some (4/5), some (1/2)⟩, ⟨.click, 1000, some (1/5), some (1/2)⟩]
        10000 defaultAutoZoomOptions :=
  buildAutoZooms_perm_invariant _ _ 10000 defaultAutoZoomOptions
    (List.Perm.swap _ _ _)
    (by norm_num [List.pairwise_cons])

/-- Result of the merge loop starts with a segment carrying the current
segment's `startMs` and `sourceSignal` (merging only grows `endMs` and
replaces the target). -/
theorem mergeRun_head (gap : ℚ) (l : List ZoomSegment) :
    ∀ cur : ZoomSegment, ∃ h t, mergeRun gap cur l = h :: t ∧
      h.startMs = cur.startMs ∧ h.sourceSignal = cur.sourceSignal := by
  induction l with
  | nil => intro cur; exact ⟨cur, [], rfl, rfl, rfl⟩
  | cons s rest ih =>
    intro cur
    by_cases hc : cur.sourceSignal = s.sourceSignal ∧ s.startMs - cur.endMs ≤ gap
    · simp only [mergeRun, if_pos hc]
      obtain ⟨h, t, heq, h1, h2⟩ := ih (mergeInto cur s)
      exact ⟨h, t, heq, h1, h2⟩
    · simp only [mergeRun, if_neg hc]
      exact ⟨cur, _, rfl, rfl, rfl⟩

/-- Every segment the merge loop returns respects the `[0, dur]` bounds if
the current segment and all remaining candidates do. -/
theorem mergeRun_bounds (gap dur : ℚ) (l : List ZoomSegment) :
    ∀ cur : ZoomSegment, 0 ≤ cur.startMs → cur.endMs ≤ dur →
      (∀ s ∈ l, 0 ≤ s.startMs ∧ s.endMs ≤ dur) →
      ∀ x ∈ mergeRun gap cur l, 0 ≤ x.startMs ∧ x.endMs ≤ dur := by
  induction l with
  | nil =>
    intro cur h1 h2 _ x hx
    simp only [mergeRun, List.mem_singleton] at hx
    exact hx ▸ ⟨h1, h2⟩
  | cons s rest ih =>
    intro cur h1 h2 hl x hx
    by_cases hc : cur.sourceSignal = s.sourceSignal ∧ s.startMs - cur.endMs ≤ gap
    · simp only [mergeRun, if_pos hc] at hx
      exact ih (mergeInto cur s) h1
        (max_le h2 (hl s (List.mem_cons_self s rest)).2)
        (fun y hy => hl y (List.mem_cons_of_mem s hy)) x hx
    · simp only [mergeRun, if_neg hc, List.mem_cons] at hx
      rcases hx with rfl | hx
      · exact ⟨h1, h2⟩
      · exact ih s (hl s (List.mem_cons_self s rest)).1 (hl s (List.mem_cons_self s rest)).2
          (fun y hy => hl y (List.mem_cons_of_mem s hy)) x hx

/-- The merge loop emits segments in nondecreasing `startMs` order when the
candidates come in nondecreasing `startMs` order. -/
theorem mergeRun_startSorted (gap : ℚ) (l : List ZoomSegment) :
    ∀ cur : ZoomSegment,
      List.Pairwise (fun a b : ZoomSegment => a.startMs ≤ b.startMs) (cur :: l) →
      List.Chain' (fun a b : ZoomSegment => a.startMs ≤ b.startMs) (mergeRun gap cur l) := by
  induction l with
  | nil => intro cur _; simp [mergeRun]
  | cons s rest ih =>
    intro cur hp
    obtain ⟨hcur, hp'⟩ := List.pairwise_cons.mp hp
    by_cases hc : cur.sourceSignal = s.sourceSignal ∧ s.startMs - cur.endMs ≤ gap
    · simp only [mergeRun, if_pos hc]
      apply ih (mergeInto cur s)
      exact List.pairwise_cons.mpr
        ⟨fun x hx => hcur x (List.mem_cons_of_mem s hx), (List.pairwise_cons.mp hp').2⟩
    · simp only [mergeRun, if_neg hc]
      obtain ⟨h, t, heq, h1, _⟩ := mergeRun_head gap rest s
      rw [heq]
      refine List.chain'_cons.mpr ⟨?_, heq ▸ ih s hp'⟩
      rw [h1]
      exact hcur s (List.mem_cons_self s rest)

/-- Consecutive segments the merge loop returns that carry the same source
signal are separated by strictly more than the merge gap. -/
theorem mergeRun_gapChain (gap : ℚ) (l : List ZoomSegment) :
    ∀ cur : ZoomSegment,
      List.Chain' (fun a b : ZoomSegment =>
        a.sourceSignal = b.sourceSignal → gap < b.startMs - a.endMs) (mergeRun gap cur l) := by
  induction l with
  | nil => intro cur; simp [mergeRun]
  | cons s rest ih =>
    intro cur
    by_cases hc : cur.sourceSignal = s.sourceSignal ∧ s.startMs - cur.endMs ≤ gap
    · simp only [mergeRun, if_pos hc]
      exact ih (mergeInto cur s)
    · simp only [mergeRun, if_neg hc]
      obtain ⟨h, t, heq, h1, h2⟩ := mergeRun_head gap rest s
      rw [heq]
      refine List.chain'_cons.mpr ⟨?_, heq ▸ ih s⟩
      intro hsig
      have hnot : ¬ s.startMs - cur.endMs ≤ gap := fun hle => hc ⟨hsig.trans h2, hle⟩
      rw [h1]
      exact lt_of_not_le hnot

/-- Invariants of the candidate pipeline tail of `buildAutoZooms` (the
early return for fewer than two candidates included). -/
theorem merged_pipeline_props (gap dur : ℚ) (raw : List ZoomSegment)
    (hb : ∀ s ∈ raw, 0 ≤ s.startMs ∧ s.endMs ≤ dur)
    (hp : List.Pairwise (fun a b : ZoomSegment => a.startMs ≤ b.startMs) raw) :
    List.Chain' (fun a b : ZoomSegment => a.startMs ≤ b.startMs)
        (if raw.length < 2 then raw else mergeCandidates gap raw) ∧
    List.Chain' (fun a b : ZoomSegment =>
        a.sourceSignal = b.sourceSignal → gap < b.startMs - a.endMs)
        (if raw.length < 2 then raw else mergeCandidates gap raw) ∧
    ∀ s ∈ (if raw.length < 2 then raw else mergeCandidates gap raw),
      0 ≤ s.startMs ∧ s.endMs ≤ dur := by
  by_cases hlen : raw.length < 2
  · simp only [if_pos hlen]
    refine ⟨hp.chain', ?_, hb⟩
    rcases raw with _ | ⟨a, _ | ⟨b, l⟩⟩
    · simp
    · simp
    · simp only [List.length_cons] at hlen; omega
  · simp only [if_neg hlen]
    rcases raw with _ | ⟨c, cs⟩
    · simp [mergeCandidates]
    · have hc := hb c (List.mem_cons_self c cs)
      refine ⟨mergeRun_startSorted gap cs c hp, mergeRun_gapChain gap cs c, ?_⟩
      intro s hs
      exact mergeRun_bounds gap dur cs c hc.1 hc.2
        (fun y hy => hb y (List.mem_cons_of_mem c hy)) s hs

/-- C7: for every event list, duration and option set, the segments built by
`buildAutoZooms` come in nondecreasing `startMs` order, consecutive segments
with the same source signal are separated by strictly more than
`mergeGapMs`, and every segment stays inside `[0, durationMs]`. -/
theorem buildAutoZooms_guarantees (events : List RecordingEvent) (durationMs : ℚ)
    (options : AutoZoomOptions) (hdur : 1 ≤ durationMs) :
    List.Chain' (fun a b : ZoomSegment => a.startMs ≤ b.startMs)
        (buildAutoZooms events durationMs options) ∧
    List.Chain' (fun a b : ZoomSegment =>
        a.sourceSignal = b.sourceSignal → options.mergeGapMs < b.startMs - a.endMs)
        (buildAutoZooms events durationMs options) ∧
    ∀ s ∈ buildAutoZooms events durationMs options,
      0 ≤ s.startMs ∧ s.endMs ≤ durationMs := by
  have hb : ∀ s ∈ ((events.insertionSort eventLE).filter
      (shouldUseEvent · options)).map (candidateOf durationMs options),
      0 ≤ s.startMs ∧ s.endMs ≤ durationMs := by
    intro s hs
    obtain ⟨e, _, rfl⟩ := List.mem_map.mp hs
    exact ⟨le_max_left _ _, min_le_left _ _⟩
  have hp : List.Pairwise (fun a b : ZoomSegment => a.startMs ≤ b.startMs)
      (((events.insertionSort eventLE).filter
        (shouldUseEvent · options)).map (candidateOf durationMs options)) := by
    have hsortp : List.Pairwise eventLE (events.insertionSort eventLE) :=
      List.sorted_insertionSort eventLE events
    have hfil : List.Pairwise eventLE
        ((events.insertionSort eventLE).filter (shouldUseEvent · options)) :=
      hsortp.filter _
    exact hfil.map _ (fun a b hab =>
      max_le_max le_rfl (sub_le_sub_right hab 120))
  have key := merged_pipeline_props options.mergeGapMs durationMs
    (((events.insertionSort eventLE).filter
      (shouldUseEvent · options)).map (candidateOf durationMs options)) hb hp
  simpa only [buildAutoZooms] using key

/-- C7 witness: a single click event within a 10-second recording. -/
theorem buildAutoZooms_guarantees_witness :
    List.Chain' (fun a b : ZoomSegment => a.startMs ≤ b.startMs)
        (buildAutoZooms [⟨.click, 1000, some (1/2), some (1/2)⟩] 10000
          defaultAutoZoomOptions) ∧
    List.Chain' (fun a b : ZoomSegment =>
        a.sourceSignal = b.sourceSignal →
          defaultAutoZoomOptions.mergeGapMs < b.startMs - a.endMs)
        (buildAutoZooms [⟨.click, 1000, some (1/2), some (1/2)⟩] 10000
          defaultAutoZoomOptions) ∧
    ∀ s ∈ buildAutoZooms [⟨.click, 1000, some (1/2), some (1/2)⟩] 10000
        defaultAutoZoomOptions,
      0 ≤ s.startMs ∧ s.endMs ≤ 10000 :=
  buildAutoZooms_guarantees [⟨.click, 1000, some (1/2), some (1/2)⟩] 10000
    defaultAutoZoomOptions (by norm_num)

/-- Four-decimal values are denoted exactly by their `toFixed(4)` literal. -/
theorem toFixedValue_eq_self {q : ℚ} (h : FourDecimal q) : toFixedValue 4 q = q := by
  have h1 := Rat.num_div_den (q * 10 ^ 4)
  rw [FourDecimal] at h
  rw [h] at h1
  simp only [Nat.cast_one, div_one] at h1
  have hfl : ⌊(1/2 : ℚ)⌋ = 0 := by norm_num
  rw [toFixedValue, ← h1, Int.floor_int_add, hfl, add_zero, h1]
  field_simp

/-- The generated `max(0, min(A, v))` and the preview's `clamp(v, 0, A)`
agree whenever the upper bound is nonnegative. -/
theorem max_min_swap (A v : ℚ) (hA : 0 ≤ A) : max 0 (min A v) = min (max v 0) A := by
  rcases le_total v 0 with h0 | h0
  · rw [min_eq_right (h0.trans hA), max_eq_left h0, max_eq_right h0, min_eq_left hA]
  · rcases le_total v A with hvA | hAv
    · rw [min_eq_right hvA, max_eq_right h0, max_eq_left h0, min_eq_left hvA]
    · rw [min_eq_left hAv, max_eq_right hA, max_eq_left h0, min_eq_right hAv]

/-- C2 amended: for a zoom segment whose level and target coordinates are
exact four-decimal values (the precision of the compiled literals), the
generated crop offsets, evaluated at a time inside the segment's compiled
interval against the frame the expressions are authored on, equal the
view-transform top-left scaled by the zoom factor:
`cropX = scale · xPx` and `cropY = scale · yPx`. -/
theorem crop_matches_viewTransform (s : ZoomSegment) (tgt : ManualTarget) (W H t : ℚ)
    (hW : 0 < W) (hH : 0 < H) (hl1 : 1 ≤ s.level) (hl4 : s.level ≤ 4)
    (htgt : s.manualTarget = some tgt)
    (hx0 : 0 ≤ tgt.xNorm) (hx1 : tgt.xNorm ≤ 1) (hy0 : 0 ≤ tgt.yNorm) (hy1 : tgt.yNorm ≤ 1)
    (hdl : FourDecimal s.level) (hdx : FourDecimal tgt.xNorm) (hdy : FourDecimal tgt.yNorm)
    (hin : compiledContains s t) :
    cropXValue [s] W t =
        (computeViewTransform (some s) W H).scale * (computeViewTransform (some s) W H).xPx ∧
    cropYValue [s] H t =
        (computeViewTransform (some s) W H).scale * (computeViewTransform (some s) W H).yPx := by
  have hz0 : (0:ℚ) < s.level := lt_of_lt_of_le one_pos hl1
  have hzne : s.level ≠ 0 := ne_of_gt hz0
  have hzoom : zoomExprValue [s] t = s.level := by
    simp only [zoomExprValue, piecewiseValue, List.foldr, if_pos hin, levelValue]
    rw [max_eq_right hl1]
    exact toFixedValue_eq_self hdl
  have hxn : xNormExprValue [s] t = tgt.xNorm := by
    simp only [xNormExprValue, piecewiseValue, List.foldr, if_pos hin, targetXValue, htgt,
      Option.map_some', Option.getD_some]
    exact toFixedValue_eq_self hdx
  have hyn : yNormExprValue [s] t = tgt.yNorm := by
    simp only [yNormExprValue, piecewiseValue, List.foldr, if_pos hin, targetYValue, htgt,
      Option.map_some', Option.getD_some]
    exact toFixedValue_eq_self hdy
  have hscale : (computeViewTransform (some s) W H).scale = s.level := by
    simp only [computeViewTransform, clamp]
    rw [max_eq_left hl1, min_eq_left hl4]
  have hxpx : (computeViewTransform (some s) W H).xPx =
      min (max (tgt.xNorm * W - W / s.level / 2) 0) (W - W / s.level) := by
    simp only [computeViewTransform, clamp, htgt, Option.getD_some]
    rw [max_eq_left hl1, min_eq_left hl4]
  have hypx : (computeViewTransform (some s) W H).yPx =
      min (max (tgt.yNorm * H - H / s.level / 2) 0) (H - H / s.level) := by
    simp only [computeViewTransform, clamp, htgt, Option.getD_some]
    rw [max_eq_left hl1, min_eq_left hl4]
  constructor
  · simp only [cropXValue, hzoom, hxn, hscale, hxpx]
    have hA : (0:ℚ) ≤ W * s.level - W := by nlinarith
    rw [max_min_swap _ _ hA, mul_min_of_nonneg _ _ hz0.le, mul_max_of_nonneg _ _ hz0.le]
    have e1 : s.level * (tgt.xNorm * W - W / s.level / 2) = W * tgt.xNorm * s.level - W / 2 := by
      field_simp
      try ring
    have e2 : s.level * (W - W / s.level) = W * s.level - W := by
      field_simp
      try ring
    rw [e1, e2, mul_zero]
  · simp only [cropYValue, hzoom, hyn, hscale, hypx]
    have hA : (0:ℚ) ≤ H * s.level - H := by nlinarith
    rw [max_min_swap _ _ hA, mul_min_of_nonneg _ _ hz0.le, mul_max_of_nonneg _ _ hz0.le]
    have e1 : s.level * (tgt.yNorm * H - H / s.level / 2) = H * tgt.yNorm * s.level - H / 2 := by
      field_simp
      try ring
    have e2 : s.level * (H - H / s.level) = H * s.level - H := by
      field_simp
      try ring
    rw [e1, e2, mul_zero]

/-- C2 counterexample: a zoom level of `2.00001` is compiled as the literal
`2.0000`, so on a 1000-pixel frame at `t = 500` the generated crop offset is
`500` while the preview's `scale · xPx` is `500.005`: the two pipelines do
not agree exactly for levels not representable in four decimals. -/
theorem crop_viewTransform_ce :
    cropXValue [⟨0, 1000, 200001/100000, .manual, some ⟨1/2, 1/2⟩, false, false, none⟩]
        1000 500 ≠
      (computeViewTransform
          (some ⟨0, 1000, 200001/100000, .manual, some ⟨1/2, 1/2⟩, false, false, none⟩)
          1000 1000).scale *
        (computeViewTransform
          (some ⟨0, 1000, 200001/100000, .manual, some ⟨1/2, 1/2⟩, false, false, none⟩)
          1000 1000).xPx := by
  norm_num [cropXValue, zoomExprValue, xNormExprValue, piecewiseValue, compiledContains,
    compiledBoundary, levelValue, targetXValue, toFixedValue, computeViewTransform, clamp,
    List.foldr, min_def, max_def]

/-- C2 witness: a level-2 segment targeting `(0.25, 0.75)` on a `1920×1080`
frame, evaluated at `t = 500` inside its `[0, 1000]` interval. -/
theorem crop_matches_viewTransform_witness :
    cropXValue [⟨0, 1000, 2, .manual, some ⟨1/4, 3/4⟩, false, false, none⟩] 1920 500 =
        (computeViewTransform
            (some ⟨0, 1000, 2, .manual, some ⟨1/4, 3/4⟩, false, false, none⟩) 1920 1080).scale *
          (computeViewTransform
            (some ⟨0, 1000, 2, .manual, some ⟨1/4, 3/4⟩, false, false, none⟩) 1920 1080).xPx ∧
    cropYValue [⟨0, 1000, 2, .manual, some ⟨1/4, 3/4⟩, false, false, none⟩] 1080 500 =
        (computeViewTransform
            (some ⟨0, 1000, 2, .manual, some ⟨1/4, 3/4⟩, false, false, none⟩) 1920 1080).scale *
          (computeViewTransform
            (some ⟨0, 1000, 2, .manual, some ⟨1/4, 3/4⟩, false, false, none⟩) 1920 1080).yPx :=
  crop_matches_viewTransform ⟨0, 1000, 2, .manual, some ⟨1/4, 3/4⟩, false, false, none⟩
    ⟨1/4, 3/4⟩ 1920 1080 500 (by norm_num) (by norm_num) (by norm_num) (by norm_num) rfl
    (by norm_num) (by norm_num) (by norm_num) (by norm_num)
    (by norm_num [FourDecimal]) (by norm_num [FourDecimal]) (by norm_num [FourDecimal])
    (by norm_num [compiledContains, compiledBoundary])

/-- Unfolding of one iteration of the retry loop: the conditional deletion
leaves no file at the output path regardless of the incoming state, so the
post-run file state is exactly what the attempt created. -/
theorem renderAttemptLoop_cons (behave : EncoderChoice → AttemptBehavior)
    (chain : List EncoderChoice) (e : EncoderChoice) (l : List EncoderChoice)
    (lastError : Option String) (st : Bool) :
    renderAttemptLoop behave chain (e :: l) lastError st =
      match runRenderResult (behave e) with
      | .error msg =>
        let r := renderAttemptLoop behave chain l (some msg) (behave e).outputCreated
        (r.1, e :: r.2)
      | .ok _ =>
        if (behave e).outputCreated then (.ok e, [e])
        else
          let r := renderAttemptLoop behave chain l (some missingOutputMessage)
            (behave e).outputCreated
          (r.1, e :: r.2) := by
  cases st <;> rfl

/-- Substring containment extends over a left append. -/
theorem strContains_append_left (n a b : String) (h : strContains n a) :
    strContains n (a ++ b) := by
  obtain ⟨u, v, huv⟩ := h
  exact ⟨u, v ++ b.data, by rw [String.data_append, huv]; simp⟩

/-- Substring containment extends over a right append. -/
theorem strContains_append_right (n a b : String) (h : strContains n b) :
    strContains n (a ++ b) := by
  obtain ⟨u, v, huv⟩ := h
  exact ⟨a.data ++ u, v, by rw [String.data_append, huv]; simp⟩

/-- Every string contains itself. -/
theorem strContains_self (s : String) : strContains s s :=
  ⟨[], [], by simp⟩

/-- Every member of a joined list is contained in the join. -/
theorem strContains_of_mem_joinSep (sep : String) :
    ∀ (l : List String) (s : String), s ∈ l → strContains s (joinSep sep l) := by
  intro l
  induction l with
  | nil => intro s hs; cases hs
  | cons x rest ih =>
    intro s hs
    rcases List.mem_cons.mp hs with rfl | hs
    · cases rest with
      | nil => exact strContains_self s
      | cons y ys =>
        show strContains s (s ++ sep ++ joinSep sep (y :: ys))
        exact strContains_append_left _ _ _ (strContains_append_left _ _ _ (strContains_self s))
    · cases rest with
      | nil => cases hs
      | cons y ys =>
        show strContains s (x ++ sep ++ joinSep sep (y :: ys))
        exact strContains_append_right _ _ _ (ih s hs)

/-- `runRender` resolves exactly when the process exits with code 0. -/
theorem runRenderResult_ok_iff (b : AttemptBehavior) :
    runRenderResult b = .ok () ↔ b.outcome = .exited 0 := by
  constructor
  · intro h
    rcases ho : b.outcome with m | c
    · rw [runRenderResult, ho] at h
      have h' : (Except.error m : Except String Unit) = .ok () := h
      cases h'
    · rw [runRenderResult, ho] at h
      have h' : (if c = 0 then (Except.ok () : Except String Unit)
          else .error (ffmpegExitMessage c b.stderrTail)) = .ok () := h
      by_cases hc : c = 0
      · rw [hc]
      · rw [if_neg hc] at h'
        cases h'
  · intro h
    rw [runRenderResult, h]
    simp

/-- A loop over a nonempty attempt list records at least one attempt. -/
theorem renderAttemptLoop_snd_ne_nil (behave : EncoderChoice → AttemptBehavior)
    (chain : List EncoderChoice) (x : EncoderChoice) (l : List EncoderChoice)
    (lastError : Option String) (st : Bool) :
    (renderAttemptLoop behave chain (x :: l) lastError st).2 ≠ [] := by
  rw [renderAttemptLoop_cons]
  cases runRenderResult (behave x) with
  | error m => simp
  | ok u => by_cases hb : (behave x).outputCreated <;> simp [hb]

/-- When every attempt fails, the loop returns the exhausted-encoders error
built from the error of the last attempt. -/
theorem exhausted_loop (behave : EncoderChoice → AttemptBehavior) (chain : List EncoderChoice) :
    ∀ (l : List EncoderChoice) (lastError : Option String) (st : Bool),
      (∀ e ∈ l, ¬ attemptSucceeds (behave e)) →
      (renderAttemptLoop behave chain l lastError st).1 =
        .error (exhaustedMessage chain (lastErrorAfter behave lastError l)) := by
  intro l
  induction l with
  | nil => intro lastError st _; rfl
  | cons e rest ih =>
    intro lastError st hfail
    rw [renderAttemptLoop_cons]
    cases hout : runRenderResult (behave e) with
    | error msg =>
      have hmsg : msg = attemptFailureMessage (behave e) := by
        rw [attemptFailureMessage, hout]
      rw [lastErrorAfter, ← hmsg]
      exact ih _ _ (fun x hx => hfail x (List.mem_cons_of_mem e hx))
    | ok u =>
      cases u
      have hout0 : (behave e).outcome = .exited 0 := (runRenderResult_ok_iff _).mp hout
      have hcreated : (behave e).outputCreated = false := by
        cases hcr : (behave e).outputCreated
        · rfl
        · exact absurd ⟨hout0, hcr⟩ (hfail e (List.mem_cons_self e rest))
      have hafm : attemptFailureMessage (behave e) = missingOutputMessage := by
        rw [attemptFailureMessage, hout]
      simp only [hcreated, Bool.false_eq_true, if_false]
      rw [lastErrorAfter, hafm]
      exact ih _ _ (fun x hx => hfail x (List.mem_cons_of_mem e hx))

/-- After a full run of failing attempts the recorded error is the failure
message of the last encoder of the chain. -/
theorem lastErrorAfter_getLast (behave : EncoderChoice → AttemptBehavior) :
    ∀ (l : List EncoderChoice) (lastError : Option String) (e : EncoderChoice),
      l.getLast? = some e →
      lastErrorAfter behave lastError l = some (attemptFailureMessage (behave e)) := by
  intro l
  induction l with
  | nil => intro lastError e h; cases h
  | cons x rest ih =>
    intro lastError e h
    cases rest with
    | nil =>
      simp only [List.getLast?_singleton, Option.some.injEq] at h
      subst h
      rfl
    | cons y ys =>
      rw [List.getLast?_cons_cons] at h
      rw [lastErrorAfter]
      exact ih _ _ h

/-- A continued loop never equals an immediate single-attempt success pair. -/
theorem renderAttemptLoop_pair_ne (behave : EncoderChoice → AttemptBehavior)
    (chain rest : List EncoderChoice) (lastError : Option String) (st : Bool)
    (encoder : EncoderChoice) :
    ((renderAttemptLoop behave chain rest lastError st).1,
        encoder :: (renderAttemptLoop behave chain rest lastError st).2) ≠
      ((Except.ok encoder : Except String EncoderChoice), [encoder]) := by
  intro h
  have h2 : (renderAttemptLoop behave chain rest lastError st).2 = [] := by
    have := congrArg Prod.snd h
    simpa using this
  cases rest with
  | nil =>
    have h1 := congrArg Prod.fst h
    simp [renderAttemptLoop] at h1
  | cons y ys => exact renderAttemptLoop_snd_ne_nil behave chain y ys _ _ h2

/-- C3: an attempt succeeds and stops the loop with only that encoder tried
iff its process exits with code 0 and the output file exists afterwards; and
when every encoder of the chain fails, the loop fails with a message naming
every attempted encoder and containing the last attempt's error message. -/
theorem render_retry_contract (behave : EncoderChoice → AttemptBehavior) :
    (∀ (chain rest : List EncoderChoice) (encoder : EncoderChoice)
        (lastError : Option String) (outputExists : Bool),
        renderAttemptLoop behave chain (encoder :: rest) lastError outputExists =
            (Except.ok encoder, [encoder]) ↔
          attemptSucceeds (behave encoder))
    ∧ (∀ (attempts : List EncoderChoice) (outputExists : Bool) (eLast : EncoderChoice),
        (∀ e ∈ attempts, ¬ attemptSucceeds (behave e)) →
        attempts.getLast? = some eLast →
        ∃ msg, (renderProjectLoop behave attempts outputExists).1 = Except.error msg ∧
          (∀ e ∈ attempts, strContains (encoderName e) msg) ∧
          strContains (attemptFailureMessage (behave eLast)) msg) := by
  constructor
  · intro chain rest encoder lastError st
    constructor
    · intro h
      rw [renderAttemptLoop_cons] at h
      cases hout : runRenderResult (behave encoder) with
      | error msg =>
        rw [hout] at h
        exact absurd h (renderAttemptLoop_pair_ne behave chain rest (some msg)
          (behave encoder).outputCreated encoder)
      | ok u =>
        cases u
        rw [hout] at h
        have hout0 := (runRenderResult_ok_iff _).mp hout
        cases hcr : (behave encoder).outputCreated with
        | false =>
          rw [hcr] at h
          simp only [Bool.false_eq_true, if_false] at h
          exact absurd h (renderAttemptLoop_pair_ne behave chain rest
            (some missingOutputMessage) false encoder)
        | true => exact ⟨hout0, hcr⟩
    · intro hsucc
      obtain ⟨ho, hc⟩ := hsucc
      rw [renderAttemptLoop_cons, (runRenderResult_ok_iff _).mpr ho]
      simp [hc]
  · intro attempts st eLast hfail hlast
    refine ⟨exhaustedMessage attempts (lastErrorAfter behave none attempts),
      exhausted_loop behave attempts attempts none st hfail, ?_, ?_⟩
    · intro e he
      simp only [exhaustedMessage]
      apply strContains_append_left
      apply strContains_append_left
      apply strContains_append_right
      exact strContains_of_mem_joinSep _ _ _ (List.mem_map_of_mem encoderName he)
    · rw [lastErrorAfter_getLast behave attempts none eLast hlast]
      simp only [exhaustedMessage, Option.getD_some]
      exact strContains_append_right _ _ _ (strContains_self _)

/-- C3 witness: a two-encoder chain in which every attempt exits with code 1
and creates no output. -/
theorem render_retry_contract_witness :
    ∃ msg,
      (renderProjectLoop (fun _ => ⟨.exited 1, [], false⟩) [.libx264, .mpeg4] false).1 =
          Except.error msg ∧
        (∀ e ∈ ([.libx264, .mpeg4] : List EncoderChoice), strContains (encoderName e) msg) ∧
        strContains
          (attemptFailureMessage ((fun _ => ⟨.exited 1, [], false⟩) EncoderChoice.mpeg4)) msg :=
  (render_retry_contract (fun _ => ⟨.exited 1, [], false⟩)).2 [.libx264, .mpeg4] false .mpeg4
    (by decide) (by rfl)

/-- C9: a timeline whose zoom segments all have level at most 1 (disabled or
not) compiles to exactly the filter graph of the same timeline with no zoom
segments: only segments with `disabled = false` and `level > 1` reach the
piecewise expressions. -/
theorem filterGraph_ignores_shallow_zooms (project : ProjectFileV1) (settings : ExportSettings)
    (h : ∀ z ∈ project.timeline.zooms, z.level ≤ 1) :
    createFilterGraph project settings =
      createFilterGraph
        { project with timeline := { project.timeline with zooms := [] } } settings := by
  have hfil : project.timeline.zooms.filter isActiveZoom = [] := by
    rw [List.filter_eq_nil_iff]
    intro z hz
    simp only [isActiveZoom, Bool.and_eq_true, decide_eq_true_eq, not_and]
    exact fun _ => not_lt.mpr (h z hz)
  simp only [createFilterGraph, createForegroundFilter]
  rw [hfil]
  rfl

/-- C9 witness: a single enabled level-1 zoom segment compiles like no zoom
at all. -/
theorem filterGraph_ignores_shallow_zooms_witness :
    createFilterGraph
        ⟨⟨[⟨0, 1000, 1, .auto, none, false, false, none⟩],
          ⟨.color, none, "#0f172a", "#0ea5e9", "#111827", none, 64, 18, 0, 48⟩⟩,
          ⟨1920, 1080, 60, .auto⟩⟩
        ⟨1920, 1080, 60, .auto⟩ =
      createFilterGraph
        ⟨⟨[], ⟨.color, none, "#0f172a", "#0ea5e9", "#111827", none, 64, 18, 0, 48⟩⟩,
          ⟨1920, 1080, 60, .auto⟩⟩
        ⟨1920, 1080, 60, .auto⟩ :=
  filterGraph_ignores_shallow_zooms
    ⟨⟨[⟨0, 1000, 1, .auto, none, false, false, none⟩],
      ⟨.color, none, "#0f172a", "#0ea5e9", "#111827", none, 64, 18, 0, 48⟩⟩,
      ⟨1920, 1080, 60, .auto⟩⟩
    ⟨1920, 1080, 60, .auto⟩
    (by intro z hz; rw [List.mem_singleton] at hz; subst hz; norm_num)

end Revamp
